import Mathlib

/-!
Verification of the to-do backend (`src/todo_backend/src/api/main.py`).

The service is a CRUD layer over one SQLite table `tasks`.  We embed it
shallowly:

* a table row becomes `TaskRow`; the SQLite store becomes `Store`, a list of
  rows together with the AUTOINCREMENT counter `nextId` (SQLite's
  `INTEGER PRIMARY KEY AUTOINCREMENT` never reuses an id, which is exactly a
  monotone counter);
* timestamps are abstract clock values of type `Nat`; the source stores
  second-precision ISO-8601 UTC strings, whose lexicographic order agrees with
  chronological order, so `≤` on `Nat` models the comparison of those strings;
  each handler captures the clock once (`now = _utc_now_iso()`), modelled as an
  explicit `now : Nat` argument;
* pydantic request models become structures, and the validation pydantic runs
  before a handler is an explicit parsing step (`parseTaskCreate`,
  `parseTaskUpdate`) in the endpoint wrappers;
* a handler becomes a pure function returning `Except ApiError _ × Store`;
  `HTTPException(404)` is `ApiError.notFound`, a pydantic rejection is
  `ApiError.validationError`, and a failure of the `assert row is not None`
  re-read checks is `ApiError.assertFailed`.
-/

/-- A row of the `tasks` table (`CREATE TABLE tasks` in `_init_db`).
`completed` is stored as `INTEGER` 0/1 in SQLite and converted with
`bool(row["completed"])`; we keep it as `Bool` directly since the handlers only
ever write `1 if c else 0`. -/
structure TaskRow where
  id : Nat
  title : String
  description : Option String
  completed : Bool
  created_at : Nat
  updated_at : Nat
deriving Repr, DecidableEq

/-- The SQLite database: the `tasks` table plus the AUTOINCREMENT counter.
`nextId` is the id the next `INSERT` will receive. -/
structure Store where
  rows : List TaskRow
  nextId : Nat
deriving Repr, DecidableEq

/-- The freshly initialised database (`_init_db` on a new file):
no rows, AUTOINCREMENT starts at 1. -/
def Store.init : Store := { rows := [], nextId := 1 }

/-- `SELECT * FROM tasks WHERE id = ?` — the first row with the given id. -/
def Store.find? (s : Store) (id : Nat) : Option TaskRow :=
  s.rows.find? (fun r => r.id == id)

/-- Well-formedness of the store, maintained by the schema
(`INTEGER PRIMARY KEY AUTOINCREMENT`): every id is positive and below the
AUTOINCREMENT counter, and ids are pairwise distinct. -/
def Store.WF (s : Store) : Prop :=
  1 ≤ s.nextId ∧ (∀ r ∈ s.rows, 0 < r.id ∧ r.id < s.nextId) ∧
    (s.rows.map (·.id)).Nodup

instance (s : Store) : Decidable s.WF := by
  unfold Store.WF; infer_instance

/-- Errors a request can produce: a pydantic/path validation rejection (HTTP
422), `HTTPException(status_code=404, detail="Task not found")`, and a failure
of an `assert row is not None` re-read check. -/
inductive ApiError where
  | validationError
  | notFound
  | assertFailed
deriving Repr, DecidableEq

/-- The task representation returned by the API (`TaskOut`). -/
structure TaskOut where
  id : Nat
  title : String
  description : Option String
  completed : Bool
  created_at : Nat
  updated_at : Nat
deriving Repr, DecidableEq

/-- `_row_to_task`: convert a row to the `TaskOut` representation. -/
def row_to_task (row : TaskRow) : TaskOut :=
  { id := row.id
    title := row.title
    description := row.description
    completed := row.completed
    created_at := row.created_at
    updated_at := row.updated_at }

/-- Response wrapper of `GET /tasks` (`TaskListResponse`). -/
structure TaskListResponse where
  tasks : List TaskOut
deriving Repr, DecidableEq

/-- Response wrapper of `PATCH /tasks/{id}/complete` (`TaskCompleteResponse`):
the updated task wrapped in a named `task` field, deliberately distinct from
the bare `TaskOut` that `PUT /tasks/{id}` returns. -/
structure TaskCompleteResponse where
  task : TaskOut
deriving Repr, DecidableEq

/-- Pydantic `TaskBase.title` constraint: `min_length=1, max_length=200`. -/
def validTitle (t : String) : Bool :=
  1 ≤ t.length && t.length ≤ 200

/-- Pydantic `TaskBase.description` constraint: optional, `max_length=2000`. -/
def validDescription : Option String → Bool
  | none => true
  | some d => d.length ≤ 2000

/-- The JSON body of `POST /tasks` before pydantic validation: `title`
required, `description` optional (absent ↦ `none`), `completed` optional
(absent ↦ `none`, defaulted to `False` by `TaskCreate`). -/
structure CreateBody where
  title : String
  description : Option String
  completed : Option Bool
deriving Repr, DecidableEq

/-- Pydantic model `TaskCreate`, after validation. -/
structure TaskCreate where
  title : String
  description : Option String
  completed : Bool
deriving Repr, DecidableEq

/-- Pydantic validation of a `POST /tasks` body into a `TaskCreate`:
title length 1–200, description length ≤ 2000, `completed` defaults to
`False` when absent. -/
def parseTaskCreate (b : CreateBody) : Except ApiError TaskCreate :=
  if validTitle b.title && validDescription b.description then
    .ok { title := b.title
          description := b.description
          completed := b.completed.getD false }
  else
    .error .validationError

/-- The JSON body of `PUT /tasks/{id}` before pydantic validation:
`title` and `completed` required, `description` optional (absent ↦ `none`). -/
structure UpdateBody where
  title : String
  description : Option String
  completed : Bool
deriving Repr, DecidableEq

/-- Pydantic model `TaskUpdate`, after validation. -/
structure TaskUpdate where
  title : String
  description : Option String
  completed : Bool
deriving Repr, DecidableEq

/-- Pydantic validation of a `PUT /tasks/{id}` body into a `TaskUpdate`;
an absent `description` stays `none` (`Optional[str] = Field(None, ...)`). -/
def parseTaskUpdate (b : UpdateBody) : Except ApiError TaskUpdate :=
  if validTitle b.title && validDescription b.description then
    .ok { title := b.title, description := b.description, completed := b.completed }
  else
    .error .validationError

/-- Handler `create_task` (body of the `POST /tasks` route, after pydantic
validation): insert the row with `created_at = updated_at = now`, commit,
re-read it by `cur.lastrowid`, assert the re-read succeeded, and return its
`TaskOut` representation. -/
def create_task (payload : TaskCreate) (now : Nat) (s : Store) :
    Except ApiError TaskOut × Store :=
  let task_id := s.nextId
  let row : TaskRow :=
    { id := task_id
      title := payload.title
      description := payload.description
      completed := payload.completed
      created_at := now
      updated_at := now }
  let s' : Store := { rows := s.rows ++ [row], nextId := s.nextId + 1 }
  match s'.find? task_id with
  | some r => (.ok (row_to_task r), s')
  | none => (.error .assertFailed, s')

/-- The `POST /tasks` endpoint: pydantic validation, then `create_task`.
A validation failure is rejected before any store access. -/
def create_endpoint (b : CreateBody) (now : Nat) (s : Store) :
    Except ApiError TaskOut × Store :=
  match parseTaskCreate b with
  | .error e => (.error e, s)
  | .ok payload => create_task payload now s

/-- The effect of `UPDATE tasks SET title = ?, description = ?, completed = ?,
updated_at = ? WHERE id = ?` on one row. -/
def applyReplace (payload : TaskUpdate) (now : Nat) (id : Nat)
    (r : TaskRow) : TaskRow :=
  if r.id == id then
    { r with
        title := payload.title
        description := payload.description
        completed := payload.completed
        updated_at := now }
  else r

/-- Handler `replace_task` (body of the `PUT /tasks/{id}` route, after path
and pydantic validation): look the id up; absent → 404 and no change; present
→ overwrite `title`, `description`, `completed`, `updated_at`, commit, re-read
the row, assert, return it. -/
def replace_task (id : Nat) (payload : TaskUpdate) (now : Nat) (s : Store) :
    Except ApiError TaskOut × Store :=
  match s.find? id with
  | none => (.error .notFound, s)
  | some _ =>
    let s' : Store := { s with rows := s.rows.map (applyReplace payload now id) }
    match s'.find? id with
    | some r => (.ok (row_to_task r), s')
    | none => (.error .assertFailed, s')

/-- The `PUT /tasks/{id}` endpoint: pydantic body validation, then
`replace_task`. -/
def replace_endpoint (id : Nat) (b : UpdateBody) (now : Nat) (s : Store) :
    Except ApiError TaskOut × Store :=
  match parseTaskUpdate b with
  | .error e => (.error e, s)
  | .ok payload => replace_task id payload now s

/-- The effect of `UPDATE tasks SET completed = ?, updated_at = ?
WHERE id = ?` on one row. -/
def applyComplete (completed : Bool) (now : Nat) (id : Nat)
    (r : TaskRow) : TaskRow :=
  if r.id == id then { r with completed := completed, updated_at := now } else r

/-- Handler `set_task_completion` (body of the `PATCH /tasks/{id}/complete`
route): look the id up; absent → 404 and no change; present → overwrite only
`completed` and `updated_at`, commit, re-read, assert, return the task inside
the `TaskCompleteResponse` wrapper. -/
def set_task_completion (id : Nat) (completed : Bool) (now : Nat) (s : Store) :
    Except ApiError TaskCompleteResponse × Store :=
  match s.find? id with
  | none => (.error .notFound, s)
  | some _ =>
    let s' : Store := { s with rows := s.rows.map (applyComplete completed now id) }
    match s'.find? id with
    | some r => (.ok { task := row_to_task r }, s')
    | none => (.error .assertFailed, s')

/-- Handler `delete_task` (body of the `DELETE /tasks/{id}` route): look the
id up; absent → 404 and no change; present → `DELETE FROM tasks WHERE id = ?`
and return the empty 204 response. -/
def delete_task (id : Nat) (s : Store) : Except ApiError Unit × Store :=
  match s.find? id with
  | none => (.error .notFound, s)
  | some _ => (.ok (), { s with rows := s.rows.filter (fun r => r.id != id) })

/-- Insertion of a row into a list sorted by descending id, used to model
`ORDER BY id DESC`. -/
def insertDesc (r : TaskRow) : List TaskRow → List TaskRow
  | [] => [r]
  | x :: xs => if r.id ≤ x.id then x :: insertDesc r xs else r :: x :: xs

/-- `SELECT * FROM tasks ORDER BY id DESC` — the rows sorted by descending
id (insertion sort). -/
def sortByIdDesc (rows : List TaskRow) : List TaskRow :=
  rows.foldr insertDesc []

/-- Handler `list_tasks` (`GET /tasks`): return every row, ordered by id
descending; the store is not modified. -/
def list_tasks (s : Store) : TaskListResponse × Store :=
  ({ tasks := (sortByIdDesc s.rows).map row_to_task }, s)

/-- One API request, for reasoning about request sequences.  Each carries the
clock value its handler reads from `_utc_now_iso()`. -/
inductive Op where
  | create (b : CreateBody) (now : Nat)
  | replace (id : Nat) (b : UpdateBody) (now : Nat)
  | setCompletion (id : Nat) (completed : Bool) (now : Nat)
  | delete (id : Nat)
deriving Repr, DecidableEq

/-- The store after handling one request. -/
def applyOp (s : Store) : Op → Store
  | .create b now => (create_endpoint b now s).2
  | .replace id b now => (replace_endpoint id b now s).2
  | .setCompletion id c now => (set_task_completion id c now s).2
  | .delete id => (delete_task id s).2

/-- The store after handling a sequence of requests, in order. -/
def run (s : Store) : List Op → Store
  | [] => s
  | op :: ops => run (applyOp s op) ops

/-- The clock value a request reads, if any (`delete_task` reads none). -/
def opTime : Op → Option Nat
  | .create _ now => some now
  | .replace _ _ now => some now
  | .setCompletion _ _ now => some now
  | .delete _ => none

/-- The clock values of a request sequence are non-decreasing and all at least
`t` — the behaviour of the real clock `_utc_now_iso()` across sequential
requests. -/
def TimesLB : Nat → List Op → Prop
  | _, [] => True
  | t, op :: ops =>
    match opTime op with
    | none => TimesLB t ops
    | some n => t ≤ n ∧ TimesLB n ops

/-- Every row's timestamps are consistent (`created_at ≤ updated_at`) and no
timestamp exceeds the clock bound `t`. -/
def TimeOK (s : Store) (t : Nat) : Prop :=
  ∀ r ∈ s.rows, r.created_at ≤ r.updated_at ∧ r.updated_at ≤ t

/-! ## Helper lemmas -/

/-- A fresh id (at or above the AUTOINCREMENT counter) has no row. -/
theorem find?_fresh_none (s : Store) (hWF : s.WF) (k : Nat)
    (hk : s.nextId ≤ k) : s.find? k = none := by
  unfold Store.find?
  rw [List.find?_eq_none]
  intro r hr
  have h := (hWF.2.1 r hr).2
  simp only [beq_iff_eq]
  omega

/-- `find?` by id commutes with mapping an id-preserving function. -/
theorem find?_map_id_pres (f : TaskRow → TaskRow)
    (hf : ∀ r, (f r).id = r.id) (k : Nat) :
    ∀ l : List TaskRow,
      (l.map f).find? (fun r => r.id == k) =
        (l.find? (fun r => r.id == k)).map f
  | [] => rfl
  | x :: xs => by
    simp only [List.map_cons, List.find?]
    rw [hf]
    cases h : (x.id == k) <;>
      simp [h, find?_map_id_pres f hf k xs]

/-- A successful lookup returns a row carrying the looked-up id. -/
theorem store_find?_id {s : Store} {k : Nat} {t : TaskRow}
    (h : s.find? k = some t) : (t.id == k) = true := by
  have h' : s.rows.find? (fun r => r.id == k) = some t := h
  have h2 := List.find?_some h'
  exact h2

/-- A successful lookup returns a row of the table. -/
theorem store_find?_mem {s : Store} {k : Nat} {t : TaskRow}
    (h : s.find? k = some t) : t ∈ s.rows := by
  have h' : s.rows.find? (fun r => r.id == k) = some t := h
  exact List.mem_of_find?_eq_some h'

/-- `applyReplace` never changes a row's id. -/
theorem applyReplace_id (payload : TaskUpdate) (now id : Nat) (r : TaskRow) :
    (applyReplace payload now id r).id = r.id := by
  unfold applyReplace; split <;> rfl

/-- `applyComplete` never changes a row's id. -/
theorem applyComplete_id (c : Bool) (now id : Nat) (r : TaskRow) :
    (applyComplete c now id r).id = r.id := by
  unfold applyComplete; split <;> rfl

/-! ## C1 -/

/-- C1: for every valid Create input (title of length 1–200, optional
description of length at most 2000, optional completed flag), Create inserts
exactly one new row (the previous rows are kept, one row is appended), and
returns a task whose `created_at` equals its `updated_at`, whose `completed`
field is `false` when the input omits it and the supplied value otherwise,
and whose title and description equal the input's. -/
theorem create_valid_spec (b : CreateBody) (now : Nat) (s : Store)
    (hWF : s.WF)
    (hv : (validTitle b.title && validDescription b.description) = true) :
    ∃ t : TaskOut,
      (create_endpoint b now s).1 = .ok t ∧
      (create_endpoint b now s).2.rows.length = s.rows.length + 1 ∧
      (∀ r ∈ s.rows, r ∈ (create_endpoint b now s).2.rows) ∧
      t.created_at = now ∧ t.updated_at = now ∧
      t.completed = b.completed.getD false ∧
      t.title = b.title ∧ t.description = b.description := by
  have hfresh : s.find? s.nextId = none :=
    find?_fresh_none s hWF s.nextId (Nat.le_refl _)
  unfold create_endpoint parseTaskCreate
  rw [hv]
  simp only [create_task, Store.find?, List.find?_append]
  unfold Store.find? at hfresh
  rw [hfresh]
  simp only [Option.none_orElse, List.find?, beq_self_eq_true, cond_true]
  simp [row_to_task]
  exact fun r hr => Or.inl hr

/-- Witness for C1 at a concrete input. -/
theorem create_valid_spec_witness :
    ∃ t : TaskOut,
      (create_endpoint ⟨"Buy milk", none, none⟩ 7 Store.init).1 = .ok t ∧
      (create_endpoint ⟨"Buy milk", none, none⟩ 7 Store.init).2.rows.length =
        Store.init.rows.length + 1 ∧
      (∀ r ∈ Store.init.rows,
        r ∈ (create_endpoint ⟨"Buy milk", none, none⟩ 7 Store.init).2.rows) ∧
      t.created_at = 7 ∧ t.updated_at = 7 ∧
      t.completed = (none : Option Bool).getD false ∧
      t.title = "Buy milk" ∧ t.description = none :=
  create_valid_spec ⟨"Buy milk", none, none⟩ 7 Store.init
    (by decide) (by decide)

/-! ## C2 -/

/-- C2: for every id with no row in the store, Replace, Set Completion and
Delete each fail with the not-found error and return the store unchanged
(same row count, same contents). -/
theorem missing_id_not_found (id : Nat) (payload : TaskUpdate) (c : Bool)
    (now now' : Nat) (s : Store) (h : s.find? id = none) :
    replace_task id payload now s = (.error .notFound, s) ∧
    set_task_completion id c now' s = (.error .notFound, s) ∧
    delete_task id s = (.error .notFound, s) := by
  refine ⟨?_, ?_, ?_⟩ <;> simp [replace_task, set_task_completion, delete_task, h]

/-- Witness for C2 at a concrete input. -/
theorem missing_id_not_found_witness :
    replace_task 5 ⟨"x", none, true⟩ 3 Store.init = (.error .notFound, Store.init) ∧
    set_task_completion 5 true 4 Store.init = (.error .notFound, Store.init) ∧
    delete_task 5 Store.init = (.error .notFound, Store.init) :=
  missing_id_not_found 5 ⟨"x", none, true⟩ true 3 4 Store.init (by decide)

/-- `Store.find?` after the Replace `UPDATE` is the original lookup with the
update applied. -/
theorem store_find?_map_replace (p : TaskUpdate) (now id k : Nat) (s : Store) :
    ({ s with rows := s.rows.map (applyReplace p now id) } : Store).find? k =
      (s.find? k).map (applyReplace p now id) :=
  find?_map_id_pres _ (applyReplace_id p now id) k s.rows

/-- `Store.find?` after the Set-Completion `UPDATE` is the original lookup
with the update applied. -/
theorem store_find?_map_complete (c : Bool) (now id k : Nat) (s : Store) :
    ({ s with rows := s.rows.map (applyComplete c now id) } : Store).find? k =
      (s.find? k).map (applyComplete c now id) :=
  find?_map_id_pres _ (applyComplete_id c now id) k s.rows

/-- Pydantic accepts a `PUT` body exactly when title and description are in
bounds. -/
theorem parseTaskUpdate_ok (b : UpdateBody)
    (hv : (validTitle b.title && validDescription b.description) = true) :
    parseTaskUpdate b = .ok ⟨b.title, b.description, b.completed⟩ := by
  simp [parseTaskUpdate, hv]

/-- Pydantic accepts a `POST` body exactly when title and description are in
bounds. -/
theorem parseTaskCreate_ok (b : CreateBody)
    (hv : (validTitle b.title && validDescription b.description) = true) :
    parseTaskCreate b = .ok ⟨b.title, b.description, b.completed.getD false⟩ := by
  simp [parseTaskCreate, hv]

/-- Unfolding of `replace_task` when the id is present. -/
theorem replace_task_found (id : Nat) (p : TaskUpdate) (now : Nat) (s : Store)
    (t0 : TaskRow) (hfind : s.find? id = some t0) :
    replace_task id p now s =
      (.ok (row_to_task
        { t0 with title := p.title, description := p.description,
                  completed := p.completed, updated_at := now }),
       { s with rows := s.rows.map (applyReplace p now id) }) := by
  have ht0 : (t0.id == id) = true := store_find?_id hfind
  have h2 : ({ s with rows := s.rows.map (applyReplace p now id) } : Store).find? id
      = some (applyReplace p now id t0) := by
    rw [store_find?_map_replace, hfind]; rfl
  unfold replace_task
  rw [hfind]
  simp only [h2, applyReplace, ht0, if_true]

/-- Unfolding of `set_task_completion` when the id is present. -/
theorem set_completion_found (id : Nat) (c : Bool) (now : Nat) (s : Store)
    (t0 : TaskRow) (hfind : s.find? id = some t0) :
    set_task_completion id c now s =
      (.ok { task := row_to_task { t0 with completed := c, updated_at := now } },
       { s with rows := s.rows.map (applyComplete c now id) }) := by
  have ht0 : (t0.id == id) = true := store_find?_id hfind
  have h2 : ({ s with rows := s.rows.map (applyComplete c now id) } : Store).find? id
      = some (applyComplete c now id t0) := by
    rw [store_find?_map_complete, hfind]; rfl
  unfold set_task_completion
  rw [hfind]
  simp only [h2, applyComplete, ht0, if_true]

/-! ## C3 -/

/-- C3: for every task present in the store, Replace with a valid body
overwrites its title, description and completed fields with the supplied
values, sets `updated_at` to the current time, leaves `id` and `created_at`
unchanged (the new row is `t0` with only those four fields replaced), leaves
every other row unchanged (lookups on other ids are identical, row count and
the id counter are unchanged), and returns the updated task representation. -/
theorem replace_present_spec (id : Nat) (b : UpdateBody) (now : Nat)
    (s : Store) (t0 : TaskRow)
    (hfind : s.find? id = some t0)
    (hv : (validTitle b.title && validDescription b.description) = true) :
    (replace_endpoint id b now s).1 =
      .ok (row_to_task
        { t0 with title := b.title, description := b.description,
                  completed := b.completed, updated_at := now }) ∧
    (replace_endpoint id b now s).2.find? id =
      some { t0 with title := b.title, description := b.description,
                     completed := b.completed, updated_at := now } ∧
    (∀ k, k ≠ id → (replace_endpoint id b now s).2.find? k = s.find? k) ∧
    (replace_endpoint id b now s).2.rows.length = s.rows.length ∧
    (replace_endpoint id b now s).2.nextId = s.nextId := by
  have ht0 : (t0.id == id) = true := store_find?_id hfind
  have hend : replace_endpoint id b now s =
      (.ok (row_to_task
        { t0 with title := b.title, description := b.description,
                  completed := b.completed, updated_at := now }),
       { s with
          rows := s.rows.map (applyReplace ⟨b.title, b.description, b.completed⟩ now id) }) := by
    unfold replace_endpoint
    rw [parseTaskUpdate_ok b hv]
    exact replace_task_found id ⟨b.title, b.description, b.completed⟩ now s t0 hfind
  rw [hend]
  refine ⟨rfl, ?_, ?_, by simp, rfl⟩
  · simp only [store_find?_map_replace, hfind, Option.map_some]
    simp [applyReplace, ht0]
  · intro k hk
    simp only [store_find?_map_replace]
    cases h : s.find? k with
    | none => rfl
    | some r =>
      have hr : (r.id == k) = true := store_find?_id h
      have hne : (r.id == id) = false := by
        simp only [beq_iff_eq] at hr
        simp only [beq_eq_false_iff_ne, ne_eq]
        omega
      simp [applyReplace, hne]

/-- Witness for C3 at a concrete input. -/
theorem replace_present_spec_witness :
    (replace_endpoint 1 ⟨"new", some "d", true⟩ 9
        ⟨[⟨1, "old", none, false, 2, 2⟩], 2⟩).1 =
      .ok (row_to_task ⟨1, "new", some "d", true, 2, 9⟩) ∧
    (replace_endpoint 1 ⟨"new", some "d", true⟩ 9
        ⟨[⟨1, "old", none, false, 2, 2⟩], 2⟩).2.find? 1 =
      some ⟨1, "new", some "d", true, 2, 9⟩ ∧
    (∀ k, k ≠ 1 →
      (replace_endpoint 1 ⟨"new", some "d", true⟩ 9
          ⟨[⟨1, "old", none, false, 2, 2⟩], 2⟩).2.find? k =
        (⟨[⟨1, "old", none, false, 2, 2⟩], 2⟩ : Store).find? k) ∧
    (replace_endpoint 1 ⟨"new", some "d", true⟩ 9
        ⟨[⟨1, "old", none, false, 2, 2⟩], 2⟩).2.rows.length =
      (⟨[⟨1, "old", none, false, 2, 2⟩], 2⟩ : Store).rows.length ∧
    (replace_endpoint 1 ⟨"new", some "d", true⟩ 9
        ⟨[⟨1, "old", none, false, 2, 2⟩], 2⟩).2.nextId =
      (⟨[⟨1, "old", none, false, 2, 2⟩], 2⟩ : Store).nextId :=
  replace_present_spec 1 ⟨"new", some "d", true⟩ 9
    ⟨[⟨1, "old", none, false, 2, 2⟩], 2⟩ ⟨1, "old", none, false, 2, 2⟩
    (by decide) (by decide)

/-! ## C4 -/

/-- C4: for every task present in the store, Set Completion overwrites only
the `completed` and `updated_at` fields (the new row is `t0` with exactly
those two fields replaced, so title, description, `created_at` and id are
untouched), leaves every other row unchanged (lookups on other ids, row count
and the id counter are unchanged), and returns the updated task wrapped in
the named `TaskCompleteResponse` wrapper — a `\x7btask: Task\x7d` shape distinct
from Replace's bare `TaskOut` return. -/
theorem set_completion_present_spec (id : Nat) (c : Bool) (now : Nat)
    (s : Store) (t0 : TaskRow) (hfind : s.find? id = some t0) :
    (set_task_completion id c now s).1 =
      .ok { task := row_to_task { t0 with completed := c, updated_at := now } } ∧
    (set_task_completion id c now s).2.find? id =
      some { t0 with completed := c, updated_at := now } ∧
    (∀ k, k ≠ id → (set_task_completion id c now s).2.find? k = s.find? k) ∧
    (set_task_completion id c now s).2.rows.length = s.rows.length ∧
    (set_task_completion id c now s).2.nextId = s.nextId := by
  have ht0 : (t0.id == id) = true := store_find?_id hfind
  rw [set_completion_found id c now s t0 hfind]
  refine ⟨rfl, ?_, ?_, by simp, rfl⟩
  · simp only [store_find?_map_complete, hfind, Option.map_some]
    simp [applyComplete, ht0]
  · intro k hk
    simp only [store_find?_map_complete]
    cases h : s.find? k with
    | none => rfl
    | some r =>
      have hr : (r.id == k) = true := store_find?_id h
      have hne : (r.id == id) = false := by
        simp only [beq_iff_eq] at hr
        simp only [beq_eq_false_iff_ne, ne_eq]
        omega
      simp [applyComplete, hne]

/-- Witness for C4 at a concrete input. -/
theorem set_completion_present_spec_witness :
    (set_task_completion 1 true 9 ⟨[⟨1, "a", some "d", false, 2, 2⟩], 2⟩).1 =
      .ok { task := row_to_task ⟨1, "a", some "d", true, 2, 9⟩ } ∧
    (set_task_completion 1 true 9 ⟨[⟨1, "a", some "d", false, 2, 2⟩], 2⟩).2.find? 1 =
      some ⟨1, "a", some "d", true, 2, 9⟩ ∧
    (∀ k, k ≠ 1 →
      (set_task_completion 1 true 9 ⟨[⟨1, "a", some "d", false, 2, 2⟩], 2⟩).2.find? k =
        (⟨[⟨1, "a", some "d", false, 2, 2⟩], 2⟩ : Store).find? k) ∧
    (set_task_completion 1 true 9 ⟨[⟨1, "a", some "d", false, 2, 2⟩], 2⟩).2.rows.length =
      (⟨[⟨1, "a", some "d", false, 2, 2⟩], 2⟩ : Store).rows.length ∧
    (set_task_completion 1 true 9 ⟨[⟨1, "a", some "d", false, 2, 2⟩], 2⟩).2.nextId =
      (⟨[⟨1, "a", some "d", false, 2, 2⟩], 2⟩ : Store).nextId :=
  set_completion_present_spec 1 true 9 ⟨[⟨1, "a", some "d", false, 2, 2⟩], 2⟩
    ⟨1, "a", some "d", false, 2, 2⟩ (by decide)

/-! ## C9 -/

/-- C9: for every task present in the store, a Replace request whose body
omits the description field (pydantic defaults the absent field to `None`)
stores `none` as the task's description — the old description is not
preserved — because the `UPDATE` writes the payload's description
unconditionally. -/
theorem replace_omitted_description_nulls (id : Nat) (b : UpdateBody)
    (now : Nat) (s : Store) (t0 : TaskRow)
    (hfind : s.find? id = some t0)
    (hb : b.description = none)
    (hv : validTitle b.title = true) :
    ∃ payload : TaskUpdate,
      parseTaskUpdate b = .ok payload ∧ payload.description = none ∧
      (replace_endpoint id b now s).2.find? id =
        some { t0 with title := b.title, description := none,
                       completed := b.completed, updated_at := now } := by
  have ht0 : (t0.id == id) = true := store_find?_id hfind
  have hv' : (validTitle b.title && validDescription b.description) = true := by
    rw [hb]; simp [hv, validDescription]
  refine ⟨⟨b.title, b.description, b.completed⟩, parseTaskUpdate_ok b hv', by simp [hb], ?_⟩
  have hend : replace_endpoint id b now s =
      (.ok (row_to_task
        { t0 with title := b.title, description := b.description,
                  completed := b.completed, updated_at := now }),
       { s with
          rows := s.rows.map (applyReplace ⟨b.title, b.description, b.completed⟩ now id) }) := by
    unfold replace_endpoint
    rw [parseTaskUpdate_ok b hv']
    exact replace_task_found id ⟨b.title, b.description, b.completed⟩ now s t0 hfind
  rw [hend]
  simp only [store_find?_map_replace, hfind, Option.map_some]
  simp [applyReplace, ht0, hb]

/-- Witness for C9 at a concrete input. -/
theorem replace_omitted_description_nulls_witness :
    ∃ payload : TaskUpdate,
      parseTaskUpdate ⟨"t2", none, false⟩ = .ok payload ∧
      payload.description = none ∧
      (replace_endpoint 1 ⟨"t2", none, false⟩ 8
          ⟨[⟨1, "t1", some "keep me", false, 3, 3⟩], 2⟩).2.find? 1 =
        some ⟨1, "t2", none, false, 3, 8⟩ :=
  replace_omitted_description_nulls 1 ⟨"t2", none, false⟩ 8
    ⟨[⟨1, "t1", some "keep me", false, 3, 3⟩], 2⟩
    ⟨1, "t1", some "keep me", false, 3, 3⟩ (by decide) rfl (by decide)

/-! ## C5 -/

/-- Inserting into the descending sort is a permutation of consing. -/
theorem insertDesc_perm (r : TaskRow) :
    ∀ l : List TaskRow, (insertDesc r l).Perm (r :: l)
  | [] => List.Perm.refl _
  | x :: xs => by
    unfold insertDesc
    split
    · exact ((insertDesc_perm r xs).cons x).trans (List.Perm.swap r x xs)
    · exact List.Perm.refl _

/-- The descending sort is a permutation of the input rows. -/
theorem sortByIdDesc_perm : ∀ l : List TaskRow, (sortByIdDesc l).Perm l
  | [] => List.Perm.refl _
  | x :: xs => by
    simp only [sortByIdDesc, List.foldr_cons]
    exact (insertDesc_perm x _).trans
      (List.Perm.cons x (sortByIdDesc_perm xs))

/-- Inserting into a list sorted by non-increasing id keeps it sorted. -/
theorem insertDesc_sorted (r : TaskRow) (l : List TaskRow)
    (h : l.Pairwise (fun a b => b.id ≤ a.id)) :
    (insertDesc r l).Pairwise (fun a b => b.id ≤ a.id) := by
  induction l with
  | nil => simp [insertDesc]
  | cons x xs ih =>
    rw [List.pairwise_cons] at h
    unfold insertDesc
    split
    · next hle =>
      rw [List.pairwise_cons]
      refine ⟨?_, ih h.2⟩
      intro y hy
      rcases List.mem_cons.1 ((insertDesc_perm r xs).mem_iff.1 hy) with rfl | h2
      · exact hle
      · exact h.1 y h2
    · next hgt =>
      rw [List.pairwise_cons]
      refine ⟨?_, List.pairwise_cons.2 h⟩
      intro y hy
      rcases List.mem_cons.1 hy with rfl | h2
      · omega
      · have := h.1 y h2
        omega

/-- The descending sort is sorted by non-increasing id. -/
theorem sortByIdDesc_sorted : ∀ l : List TaskRow,
    (sortByIdDesc l).Pairwise (fun a b => b.id ≤ a.id)
  | [] => List.Pairwise.nil
  | x :: xs => by
    simp only [sortByIdDesc, List.foldr_cons]
    exact insertDesc_sorted x _ (sortByIdDesc_sorted xs)

/-- C5: List takes no input beyond the store, leaves the store unchanged, and
returns every stored task exactly once (the output is a permutation of the
rows' representations), sorted in strictly descending order of id — for any
store with unique ids, hence regardless of the order of prior insertions,
updates and deletions. -/
theorem list_tasks_spec (s : Store) (hWF : s.WF) :
    (list_tasks s).2 = s ∧
    (list_tasks s).1.tasks.Perm (s.rows.map row_to_task) ∧
    (list_tasks s).1.tasks.Pairwise (fun a b => b.id < a.id) := by
  refine ⟨rfl, (sortByIdDesc_perm s.rows).map row_to_task, ?_⟩
  have hsor := sortByIdDesc_sorted s.rows
  have hnd : ((sortByIdDesc s.rows).map (·.id)).Nodup :=
    (((sortByIdDesc_perm s.rows).map (·.id)).nodup_iff).2 hWF.2.2
  have hne : (sortByIdDesc s.rows).Pairwise (fun a b => a.id ≠ b.id) :=
    List.pairwise_map.1 hnd
  have hlt : (sortByIdDesc s.rows).Pairwise (fun a b => b.id < a.id) :=
    (hsor.and hne).imp (fun h => by omega)
  exact List.pairwise_map.2 hlt

/-- Witness for C5 at a concrete store. -/
theorem list_tasks_spec_witness :
    (list_tasks ⟨[⟨1, "a", none, false, 0, 0⟩, ⟨3, "c", none, false, 2, 2⟩,
        ⟨2, "b", none, true, 1, 1⟩], 4⟩).2 =
      ⟨[⟨1, "a", none, false, 0, 0⟩, ⟨3, "c", none, false, 2, 2⟩,
        ⟨2, "b", none, true, 1, 1⟩], 4⟩ ∧
    (list_tasks ⟨[⟨1, "a", none, false, 0, 0⟩, ⟨3, "c", none, false, 2, 2⟩,
        ⟨2, "b", none, true, 1, 1⟩], 4⟩).1.tasks.Perm
      (([⟨1, "a", none, false, 0, 0⟩, ⟨3, "c", none, false, 2, 2⟩,
        ⟨2, "b", none, true, 1, 1⟩] : List TaskRow).map row_to_task) ∧
    (list_tasks ⟨[⟨1, "a", none, false, 0, 0⟩, ⟨3, "c", none, false, 2, 2⟩,
        ⟨2, "b", none, true, 1, 1⟩], 4⟩).1.tasks.Pairwise
      (fun a b => b.id < a.id) :=
  list_tasks_spec ⟨[⟨1, "a", none, false, 0, 0⟩, ⟨3, "c", none, false, 2, 2⟩,
      ⟨2, "b", none, true, 1, 1⟩], 4⟩ (by decide)

/-! ## C6 -/

/-- The `INSERT` + re-read of `create_task` always succeeds: the result is
`ok` for some row of the updated table, which is the old table plus exactly
the freshly inserted row. -/
theorem create_task_eq (p : TaskCreate) (now : Nat) (s : Store) :
    ∃ r : TaskRow,
      create_task p now s =
        (.ok (row_to_task r),
         { rows := s.rows ++ [⟨s.nextId, p.title, p.description, p.completed, now, now⟩],
           nextId := s.nextId + 1 }) ∧
      r ∈ s.rows ++ [⟨s.nextId, p.title, p.description, p.completed, now, now⟩] ∧
      r.id = s.nextId := by
  simp only [create_task]
  cases h : ({ rows := s.rows ++ [⟨s.nextId, p.title, p.description, p.completed, now, now⟩],
               nextId := s.nextId + 1 } : Store).find? s.nextId with
  | some r =>
    have hid : (r.id == s.nextId) = true := store_find?_id h
    exact ⟨r, rfl, store_find?_mem h, by simpa using hid⟩
  | none =>
    exfalso
    have h' : (s.rows ++
        [(⟨s.nextId, p.title, p.description, p.completed, now, now⟩ : TaskRow)]).find?
          (fun r => r.id == s.nextId) = none := h
    have := List.find?_eq_none.1 h'
      ⟨s.nextId, p.title, p.description, p.completed, now, now⟩ (by simp)
    simp at this

/-- C6: a Create request whose title has length 0 or length over 200, or
whose description has length over 2000, is rejected with a validation error
before any store write (the store, hence its row count, is unchanged); a
Create request whose title has length exactly 200 (and whose description is
within bounds) is accepted. -/
theorem create_validation_spec (b : CreateBody) (now : Nat) (s : Store) :
    ((b.title.length = 0 ∨ 200 < b.title.length ∨
        (∃ d, b.description = some d ∧ 2000 < d.length)) →
      create_endpoint b now s = (.error .validationError, s)) ∧
    ((b.title.length = 200 ∧ validDescription b.description = true) →
      ∃ t, (create_endpoint b now s).1 = .ok t) := by
  constructor
  · intro h
    have hinv : (validTitle b.title && validDescription b.description) = false := by
      rcases h with h0 | h200 | ⟨d, hd, hlen⟩
      · simp [validTitle, h0]
      · simp [validTitle]
        intro h1
        omega
      · simp [validDescription, hd, validTitle]
        intro _ _
        omega
    unfold create_endpoint parseTaskCreate
    rw [hinv]
    rfl
  · rintro ⟨h200, hdesc⟩
    have hv : (validTitle b.title && validDescription b.description) = true := by
      simp [validTitle, h200, hdesc]
    unfold create_endpoint
    rw [parseTaskCreate_ok b hv]
    obtain ⟨r, hr, -, -⟩ := create_task_eq ⟨b.title, b.description, b.completed.getD false⟩ now s
    refine ⟨row_to_task r, ?_⟩
    show (create_task ⟨b.title, b.description, b.completed.getD false⟩ now s).1 =
      Except.ok (row_to_task r)
    rw [hr]

/-- Witness for C6: a title of length 201 is rejected, a title of length 200
is accepted. -/
theorem create_validation_spec_witness :
    create_endpoint ⟨String.mk (List.replicate 201 'a'), none, none⟩ 1 Store.init =
      (.error .validationError, Store.init) ∧
    ∃ t, (create_endpoint ⟨String.mk (List.replicate 200 'a'), none, none⟩ 1 Store.init).1 =
      .ok t := by
  constructor
  · apply (create_validation_spec
      ⟨String.mk (List.replicate 201 'a'), none, none⟩ 1 Store.init).1
    refine Or.inr (Or.inl ?_)
    have h : (String.mk (List.replicate 201 'a')).length =
        (List.replicate 201 'a').length := rfl
    rw [h, List.length_replicate]
    omega
  · apply (create_validation_spec
      ⟨String.mk (List.replicate 200 'a'), none, none⟩ 1 Store.init).2
    constructor
    · have h : (String.mk (List.replicate 200 'a')).length =
          (List.replicate 200 'a').length := rfl
      rw [h, List.length_replicate]
    · rfl

/-! ## C10 -/

/-- C10: under sequential execution the row read back immediately after the
`INSERT` in Create and after the `UPDATE`s in Replace and Set Completion
always exists: none of the three handlers can return the assertion failure,
and whenever a handler returns a task representation, that representation is
exactly `_row_to_task` of a row persisted in the resulting store. -/
theorem asserts_hold_spec (s : Store) (p : TaskCreate) (pu : TaskUpdate)
    (ida idb : Nat) (c : Bool) (n1 n2 n3 : Nat) :
    ((create_task p n1 s).1 ≠ .error .assertFailed ∧
      ∀ t, (create_task p n1 s).1 = .ok t →
        ∃ r ∈ (create_task p n1 s).2.rows, row_to_task r = t) ∧
    ((replace_task ida pu n2 s).1 ≠ .error .assertFailed ∧
      ∀ t, (replace_task ida pu n2 s).1 = .ok t →
        ∃ r ∈ (replace_task ida pu n2 s).2.rows, row_to_task r = t) ∧
    ((set_task_completion idb c n3 s).1 ≠ .error .assertFailed ∧
      ∀ w, (set_task_completion idb c n3 s).1 = .ok w →
        ∃ r ∈ (set_task_completion idb c n3 s).2.rows, row_to_task r = w.task) := by
  refine ⟨?_, ?_, ?_⟩
  · obtain ⟨r, hr, hmem, -⟩ := create_task_eq p n1 s
    rw [hr]
    refine ⟨by simp, ?_⟩
    intro t ht
    simp only at ht
    exact ⟨r, hmem, by simpa using ht⟩
  · cases hf : s.find? ida with
    | none =>
      have h : replace_task ida pu n2 s = (.error .notFound, s) := by
        simp [replace_task, hf]
      rw [h]
      exact ⟨by simp, fun t ht => by simp at ht⟩
    | some t0 =>
      have ht0 : (t0.id == ida) = true := store_find?_id hf
      rw [replace_task_found ida pu n2 s t0 hf]
      refine ⟨by simp, ?_⟩
      intro t ht
      simp only at ht
      refine ⟨applyReplace pu n2 ida t0,
        List.mem_map_of_mem _ (store_find?_mem hf), ?_⟩
      rw [show applyReplace pu n2 ida t0 =
        { t0 with title := pu.title, description := pu.description,
                  completed := pu.completed, updated_at := n2 } by
          simp [applyReplace, ht0]]
      simpa using ht
  · cases hf : s.find? idb with
    | none =>
      have h : set_task_completion idb c n3 s = (.error .notFound, s) := by
        simp [set_task_completion, hf]
      rw [h]
      exact ⟨by simp, fun w hw => by simp at hw⟩
    | some t0 =>
      have ht0 : (t0.id == idb) = true := store_find?_id hf
      rw [set_completion_found idb c n3 s t0 hf]
      refine ⟨by simp, ?_⟩
      intro w hw
      simp only at hw
      refine ⟨applyComplete c n3 idb t0,
        List.mem_map_of_mem _ (store_find?_mem hf), ?_⟩
      rw [show applyComplete c n3 idb t0 =
        { t0 with completed := c, updated_at := n3 } by
          simp [applyComplete, ht0]]
      have hinj := Except.ok.inj hw
      rw [← hinj]

/-- Witness for C10 at a concrete input. -/
theorem asserts_hold_spec_witness :
    (create_task ⟨"a", none, false⟩ 1 Store.init).1 ≠ .error .assertFailed ∧
    ∃ r ∈ (create_task ⟨"a", none, false⟩ 1 Store.init).2.rows,
      row_to_task r = row_to_task ⟨1, "a", none, false, 1, 1⟩ := by
  refine ⟨(asserts_hold_spec Store.init ⟨"a", none, false⟩ ⟨"b", none, true⟩
    1 1 true 1 2 3).1.1, ?_⟩
  exact (asserts_hold_spec Store.init ⟨"a", none, false⟩ ⟨"b", none, true⟩
    1 1 true 1 2 3).1.2 (row_to_task ⟨1, "a", none, false, 1, 1⟩) rfl

/-! ## C7 -/

/-- One request preserves timestamp consistency: if every row has
`created_at ≤ updated_at ≤ t` and the request's clock reading is at least
`t`, the same holds afterwards with the new clock value as bound. -/
theorem timeok_applyOp (s : Store) (t : Nat) (op : Op)
    (hOK : TimeOK s t) (hLB : ∀ n, opTime op = some n → t ≤ n) :
    TimeOK (applyOp s op) ((opTime op).getD t) := by
  cases op with
  | create b now =>
    have htn : t ≤ now := hLB now rfl
    simp only [applyOp, create_endpoint, opTime, Option.getD_some]
    cases hp : parseTaskCreate b with
    | error e =>
      exact fun r hr => ⟨(hOK r hr).1, le_trans (hOK r hr).2 htn⟩
    | ok payload =>
      show TimeOK (create_task payload now s).2 now
      obtain ⟨r0, hr0, -, -⟩ := create_task_eq payload now s
      rw [hr0]
      intro r hr
      rcases List.mem_append.1 hr with h1 | h2
      · exact ⟨(hOK r h1).1, le_trans (hOK r h1).2 htn⟩
      · rw [List.mem_singleton.1 h2]
        exact ⟨le_refl _, le_refl _⟩
  | replace id b now =>
    have htn : t ≤ now := hLB now rfl
    simp only [applyOp, replace_endpoint, opTime, Option.getD_some]
    cases hp : parseTaskUpdate b with
    | error e =>
      exact fun r hr => ⟨(hOK r hr).1, le_trans (hOK r hr).2 htn⟩
    | ok payload =>
      show TimeOK (replace_task id payload now s).2 now
      cases hf : s.find? id with
      | none =>
        simp only [replace_task, hf]
        exact fun r hr => ⟨(hOK r hr).1, le_trans (hOK r hr).2 htn⟩
      | some t0 =>
        rw [replace_task_found id payload now s t0 hf]
        intro r hr
        obtain ⟨a, ha, rfl⟩ := List.mem_map.1 hr
        have hba := hOK a ha
        unfold applyReplace
        split
        · exact ⟨by simp; omega, by simp⟩
        · exact ⟨hba.1, le_trans hba.2 htn⟩
  | setCompletion id c now =>
    have htn : t ≤ now := hLB now rfl
    simp only [applyOp, opTime, Option.getD_some]
    cases hf : s.find? id with
    | none =>
      simp only [set_task_completion, hf]
      exact fun r hr => ⟨(hOK r hr).1, le_trans (hOK r hr).2 htn⟩
    | some t0 =>
      rw [set_completion_found id c now s t0 hf]
      intro r hr
      obtain ⟨a, ha, rfl⟩ := List.mem_map.1 hr
      have hba := hOK a ha
      unfold applyComplete
      split
      · exact ⟨by simp; omega, by simp⟩
      · exact ⟨hba.1, le_trans hba.2 htn⟩
  | delete id =>
    simp only [applyOp, opTime, Option.getD_none]
    cases hf : s.find? id with
    | none =>
      simp only [delete_task, hf]
      exact hOK
    | some t0 =>
      simp only [delete_task, hf]
      intro r hr
      exact hOK r (List.mem_of_mem_filter hr)

/-- Along any chronologically ordered request sequence, timestamp
consistency is preserved (with some final clock bound). -/
theorem timeok_run (ops : List Op) : ∀ (s : Store) (t : Nat),
    TimeOK s t → TimesLB t ops → ∃ u, TimeOK (run s ops) u := by
  induction ops with
  | nil => exact fun s t h _ => ⟨t, h⟩
  | cons op ops ih =>
    intro s t h hLB
    simp only [run]
    simp only [TimesLB] at hLB
    cases hop : opTime op with
    | none =>
      rw [hop] at hLB
      refine ih (applyOp s op) t ?_ hLB
      have := timeok_applyOp s t op h (fun n hn => by rw [hop] at hn; cases hn)
      rwa [hop] at this
    | some n =>
      rw [hop] at hLB
      refine ih (applyOp s op) n ?_ hLB.2
      have := timeok_applyOp s t op h
        (fun m hm => by rw [hop] at hm; cases hm; exact hLB.1)
      rwa [hop] at this

/-- C7: starting from the empty store, after any sequence of Create, Replace,
Set Completion and Delete requests whose clock readings are chronologically
non-decreasing (as the real UTC clock is), every task in the store satisfies
`updated_at ≥ created_at`; since the sequence is arbitrary, this holds at
every point of every task's lifetime. -/
theorem updated_at_ge_created_at (ops : List Op) (t : Nat)
    (hLB : TimesLB t ops) :
    ∀ r ∈ (run Store.init ops).rows, r.created_at ≤ r.updated_at := by
  obtain ⟨u, h⟩ := timeok_run ops Store.init t (fun r hr => nomatch hr) hLB
  exact fun r hr => (h r hr).1

/-- Witness for C7: a two-request trace, evaluated at the resulting row. -/
theorem updated_at_ge_created_at_witness :
    TimesLB 0 [Op.create ⟨"a", none, none⟩ 1, Op.setCompletion 1 true 2] ∧
    (⟨1, "a", none, true, 1, 2⟩ : TaskRow).created_at ≤
      (⟨1, "a", none, true, 1, 2⟩ : TaskRow).updated_at := by
  have hTLB : TimesLB 0 [Op.create ⟨"a", none, none⟩ 1,
      Op.setCompletion 1 true 2] :=
    ⟨by omega, by omega, trivial⟩
  exact ⟨hTLB, updated_at_ge_created_at
    [Op.create ⟨"a", none, none⟩ 1, Op.setCompletion 1 true 2] 0 hTLB
    ⟨1, "a", none, true, 1, 2⟩ (by decide)⟩

/-! ## C8 -/

/-- One request preserves well-formedness, never decreases the AUTOINCREMENT
counter, and every row id after it either already existed or is the freshly
assigned `nextId` (so it lies between the old and the new counter). -/
theorem wf_applyOp (s : Store) (op : Op) (hWF : s.WF) :
    (applyOp s op).WF ∧ s.nextId ≤ (applyOp s op).nextId ∧
    ∀ r ∈ (applyOp s op).rows,
      r.id ∈ s.rows.map (fun x => x.id) ∨
        (s.nextId ≤ r.id ∧ r.id < (applyOp s op).nextId) := by
  cases op with
  | create b now =>
    simp only [applyOp, create_endpoint]
    cases hp : parseTaskCreate b with
    | error e =>
      exact ⟨hWF, le_refl _, fun r hr => Or.inl (List.mem_map_of_mem _ hr)⟩
    | ok payload =>
      show (create_task payload now s).2.WF ∧
        s.nextId ≤ (create_task payload now s).2.nextId ∧
        ∀ r ∈ (create_task payload now s).2.rows,
          r.id ∈ s.rows.map (fun x => x.id) ∨
            (s.nextId ≤ r.id ∧ r.id < (create_task payload now s).2.nextId)
      obtain ⟨r0, hr0, -, -⟩ := create_task_eq payload now s
      rw [hr0]
      have hn1 := hWF.1
      refine ⟨⟨?_, ?_, ?_⟩, ?_, ?_⟩
      · show 1 ≤ s.nextId + 1
        omega
      · intro r hr
        have hr' : r ∈ s.rows ++ [(⟨s.nextId, payload.title, payload.description,
            payload.completed, now, now⟩ : TaskRow)] := hr
        show 0 < r.id ∧ r.id < s.nextId + 1
        rcases List.mem_append.1 hr' with h1 | h2
        · have := hWF.2.1 r h1
          omega
        · rw [List.mem_singleton.1 h2]
          show 0 < s.nextId ∧ s.nextId < s.nextId + 1
          omega
      · show (((s.rows ++ [(⟨s.nextId, payload.title, payload.description,
            payload.completed, now, now⟩ : TaskRow)]).map (fun x => x.id))).Nodup
        rw [List.map_append, List.nodup_append]
        refine ⟨hWF.2.2, List.nodup_singleton _, ?_⟩
        intro x hx
        obtain ⟨a, ha, rfl⟩ := List.mem_map.1 hx
        have := (hWF.2.1 a ha).2
        simp only [List.map_cons, List.map_nil, List.mem_singleton]
        show ¬ a.id = s.nextId
        omega
      · show s.nextId ≤ s.nextId + 1
        omega
      · intro r hr
        have hr' : r ∈ s.rows ++ [(⟨s.nextId, payload.title, payload.description,
            payload.completed, now, now⟩ : TaskRow)] := hr
        show r.id ∈ s.rows.map (fun x => x.id) ∨
          (s.nextId ≤ r.id ∧ r.id < s.nextId + 1)
        rcases List.mem_append.1 hr' with h1 | h2
        · exact Or.inl (List.mem_map_of_mem _ h1)
        · rw [List.mem_singleton.1 h2]
          refine Or.inr ⟨le_refl _, ?_⟩
          show s.nextId < s.nextId + 1
          omega
  | replace id b now =>
    simp only [applyOp, replace_endpoint]
    cases hp : parseTaskUpdate b with
    | error e =>
      exact ⟨hWF, le_refl _, fun r hr => Or.inl (List.mem_map_of_mem _ hr)⟩
    | ok payload =>
      show (replace_task id payload now s).2.WF ∧
        s.nextId ≤ (replace_task id payload now s).2.nextId ∧
        ∀ r ∈ (replace_task id payload now s).2.rows,
          r.id ∈ s.rows.map (fun x => x.id) ∨
            (s.nextId ≤ r.id ∧ r.id < (replace_task id payload now s).2.nextId)
      cases hf : s.find? id with
      | none =>
        simp only [replace_task, hf]
        exact ⟨hWF, le_refl _, fun r hr => Or.inl (List.mem_map_of_mem _ hr)⟩
      | some t0 =>
        rw [replace_task_found id payload now s t0 hf]
        have hids : (s.rows.map (applyReplace payload now id)).map (fun x => x.id) =
            s.rows.map (fun x => x.id) := by
          rw [List.map_map]
          exact List.map_congr_left (fun a _ => applyReplace_id payload now id a)
        refine ⟨⟨hWF.1, ?_, ?_⟩, le_refl _, ?_⟩
        · intro r hr
          obtain ⟨a, ha, rfl⟩ := List.mem_map.1 hr
          rw [applyReplace_id]
          exact hWF.2.1 a ha
        · show ((s.rows.map (applyReplace payload now id)).map (fun x => x.id)).Nodup
          rw [hids]
          exact hWF.2.2
        · intro r hr
          obtain ⟨a, ha, rfl⟩ := List.mem_map.1 hr
          rw [applyReplace_id]
          exact Or.inl (List.mem_map_of_mem _ ha)
  | setCompletion id c now =>
    simp only [applyOp]
    cases hf : s.find? id with
    | none =>
      simp only [set_task_completion, hf]
      exact ⟨hWF, le_refl _, fun r hr => Or.inl (List.mem_map_of_mem _ hr)⟩
    | some t0 =>
      rw [set_completion_found id c now s t0 hf]
      have hids : (s.rows.map (applyComplete c now id)).map (fun x => x.id) =
          s.rows.map (fun x => x.id) := by
        rw [List.map_map]
        exact List.map_congr_left (fun a _ => applyComplete_id c now id a)
      refine ⟨⟨hWF.1, ?_, ?_⟩, le_refl _, ?_⟩
      · intro r hr
        obtain ⟨a, ha, rfl⟩ := List.mem_map.1 hr
        rw [applyComplete_id]
        exact hWF.2.1 a ha
      · show ((s.rows.map (applyComplete c now id)).map (fun x => x.id)).Nodup
        rw [hids]
        exact hWF.2.2
      · intro r hr
        obtain ⟨a, ha, rfl⟩ := List.mem_map.1 hr
        rw [applyComplete_id]
        exact Or.inl (List.mem_map_of_mem _ ha)
  | delete id =>
    simp only [applyOp]
    cases hf : s.find? id with
    | none =>
      simp only [delete_task, hf]
      exact ⟨hWF, le_refl _, fun r hr => Or.inl (List.mem_map_of_mem _ hr)⟩
    | some t0 =>
      simp only [delete_task, hf]
      refine ⟨⟨hWF.1, ?_, ?_⟩, le_refl _, ?_⟩
      · intro r hr
        exact hWF.2.1 r (List.mem_of_mem_filter hr)
      · exact hWF.2.2.sublist ((List.filter_sublist _).map _)
      · intro r hr
        exact Or.inl (List.mem_map_of_mem _ (List.mem_of_mem_filter hr))

/-- Trace version of `wf_applyOp`: over any request sequence the store stays
well-formed, the counter is monotone, and every surviving row id is either an
original id or one assigned fresh (at or above the original counter). -/
theorem wf_run (ops : List Op) : ∀ s : Store, s.WF →
    (run s ops).WF ∧ s.nextId ≤ (run s ops).nextId ∧
    ∀ r ∈ (run s ops).rows,
      r.id ∈ s.rows.map (fun x => x.id) ∨
        (s.nextId ≤ r.id ∧ r.id < (run s ops).nextId) := by
  induction ops with
  | nil =>
    exact fun s h => ⟨h, le_refl _, fun r hr => Or.inl (List.mem_map_of_mem _ hr)⟩
  | cons op ops ih =>
    intro s hWF
    simp only [run]
    obtain ⟨hWF1, hmono1, horig1⟩ := wf_applyOp s op hWF
    obtain ⟨hWF2, hmono2, horig2⟩ := ih (applyOp s op) hWF1
    refine ⟨hWF2, le_trans hmono1 hmono2, ?_⟩
    intro r hr
    rcases horig2 r hr with h1 | h2
    · obtain ⟨a, ha, haid⟩ := List.mem_map.1 h1
      rcases horig1 a ha with g1 | g2
      · exact Or.inl (haid ▸ g1)
      · exact Or.inr ⟨haid ▸ g2.1, haid ▸ lt_of_lt_of_le g2.2 hmono2⟩
    · exact Or.inr ⟨le_trans hmono1 h2.1, h2.2⟩

/-- C8: ids are assigned by the store at creation only — a single
`create_task` returns a task with id equal to the current counter and bumps
the counter by one, so ids increase monotonically across successive
creations; over any request sequence on a well-formed store, the store stays
well-formed (all ids unique and greater than zero), no operation mutates an
existing row's id (every id afterwards is an original id or a fresh one at or
above the old counter), and an id that is absent yet below the counter (as
every id freed by Delete is) is never carried by any later row — it is never
reissued. -/
theorem task_ids_spec (s : Store) (ops : List Op) (hWF : s.WF) :
    ((run s ops).WF ∧
     s.nextId ≤ (run s ops).nextId ∧
     (∀ r ∈ (run s ops).rows,
        r.id ∈ s.rows.map (fun x => x.id) ∨
          (s.nextId ≤ r.id ∧ r.id < (run s ops).nextId)) ∧
     (∀ j, j ∉ s.rows.map (fun x => x.id) → j < s.nextId →
        ∀ r ∈ (run s ops).rows, r.id ≠ j)) ∧
    ∀ p now, (create_task p now s).2.nextId = s.nextId + 1 ∧
      ∃ t, (create_task p now s).1 = .ok t ∧ t.id = s.nextId := by
  obtain ⟨h1, h2, h3⟩ := wf_run ops s hWF
  refine ⟨⟨h1, h2, h3, ?_⟩, ?_⟩
  · intro j hj hlt r hr
    rcases h3 r hr with g1 | g2
    · intro h
      exact hj (h ▸ g1)
    · omega
  · intro p now
    obtain ⟨r0, hr0, -, hid⟩ := create_task_eq p now s
    rw [hr0]
    exact ⟨rfl, row_to_task r0, rfl, hid⟩

/-- Witness for C8: a store where id 1 has been freed (counter is 3); after a
Create, the store is well-formed and the new row does not reuse id 1. -/
theorem task_ids_spec_witness :
    (run ⟨[⟨2, "b", none, false, 0, 0⟩], 3⟩ [Op.create ⟨"c", none, none⟩ 5]).WF ∧
    (⟨3, "c", none, false, 5, 5⟩ : TaskRow).id ≠ 1 := by
  have h := task_ids_spec ⟨[⟨2, "b", none, false, 0, 0⟩], 3⟩
    [Op.create ⟨"c", none, none⟩ 5] (by decide)
  exact ⟨h.1.1, h.1.2.2.2 1 (by decide) (by decide)
    ⟨3, "c", none, false, 5, 5⟩ (by decide)⟩
